import Mathlib

/-!
Shallow embedding of the Veerji-Lang translator (lexer.c, parser.c, codegen.c).
Strings from the C sources are modelled as lists of bytes (`List Nat`); the
output file written by `generate_code` is modelled as the list of bytes the
`fprintf` calls append, in order.
-/

set_option maxHeartbeats 1000000
set_option maxRecDepth 100000

namespace Veerji

/-- TokenType enum from lexer.c / parser.c / main.c. -/
inductive TokenType where
  | TOKEN_PRINT
  | TOKEN_SEPARATOR
  | TOKEN_STRING
  | TOKEN_UNKNOWN
deriving DecidableEq

export TokenType (TOKEN_PRINT TOKEN_SEPARATOR TOKEN_STRING TOKEN_UNKNOWN)

/-- Token struct: a type tag and the `value[512]` payload, modelled as the
bytes of the stored C string (no NUL terminator, hence at most 511 bytes). -/
structure Token where
  type : TokenType
  value : List Nat
deriving DecidableEq

/-- StatementType enum from parser.c / codegen.c. -/
inductive StatementType where
  | STMT_PRINT
deriving DecidableEq

export StatementType (STMT_PRINT)

/-- Statement struct: a tag and the owned string payload. -/
structure Statement where
  type : StatementType
  value : List Nat
deriving DecidableEq

/-- Program struct from parser.c: a statement sequence and a count field. -/
structure Program where
  statements : List Statement
  count : Nat
deriving DecidableEq

/-- The UTF-8 bytes of the print keyword literal in lexer.c. -/
def kwB : List Nat := [0xE0, 0xA8, 0xB2, 0xE0, 0xA8, 0xBF, 0xE0, 0xA8, 0x96, 0xE0, 0xA9, 0x8B]

/-- The UTF-8 bytes of the separator glyph literal in lexer.c. -/
def sepB : List Nat := [0xE2, 0x98, 0xAC]

/-- The bytes of the fixed placeholder value for unknown tokens. -/
def unkB : List Nat := [0x3F, 0x3F, 0x3F]

/-- `strstr`: index of the first position where `pat` occurs as a contiguous
run in the haystack, if any. -/
def findSub (pat : List Nat) : List Nat → Option Nat
  | [] => if pat == ([] : List Nat) then some 0 else none
  | a :: t => if pat == (a :: t).take pat.length then some 0 else (findSub pat t).map (· + 1)

/-- `tokenize` from lexer.c.  The line is a byte list (the C string `line`).
Mirrors: `strncmp` of the keyword prefix, `strstr` for the separator, pointer
advance past the separator, the space-skipping loop, `strncpy` into the
511-byte payload and the `strcspn`-based newline strip. -/
def tokenize (line : List Nat) : List Token :=
  if line.take kwB.length == kwB then
    match findSub sepB line with
    | some j =>
      let str := (line.drop (j + sepB.length)).dropWhile (fun b => b == 32)
      let v := (str.take 511).takeWhile (fun b => b != 10)
      [⟨TOKEN_PRINT, kwB⟩, ⟨TOKEN_SEPARATOR, sepB⟩, ⟨TOKEN_STRING, v⟩]
    | none => [⟨TOKEN_PRINT, kwB⟩]
  else
    [⟨TOKEN_UNKNOWN, unkB⟩]

/-- The data carried by the parser's fatal syntax error: the token index and
the token's literal text, as printed by the `fprintf` in parse_tokens. -/
structure SyntaxError where
  pos : Nat
  text : List Nat
deriving DecidableEq

/-- The scanning loop of `parse_tokens` from parser.c: `i` is the current
token index; a matching (PRINT, SEPARATOR, STRING) triple appends one Print
statement and advances by three, anything else aborts with the index and the
current token's value. -/
def parseAux (i : Nat) : List Token → Except SyntaxError (List Statement)
  | [] => .ok []
  | a :: b :: c :: t =>
    if a.type = TOKEN_PRINT ∧ b.type = TOKEN_SEPARATOR ∧ c.type = TOKEN_STRING then
      (parseAux (i + 3) t).map (fun l => ⟨STMT_PRINT, c.value⟩ :: l)
    else
      .error ⟨i, a.value⟩
  | a :: _ => .error ⟨i, a.value⟩

/-- `parse_tokens` from parser.c.  The fatal `exit(1)` is modelled as the
error branch of `Except`; on success `count` is the number of statements
appended. -/
def parse_tokens (tokens : List Token) : Except SyntaxError Program :=
  (parseAux 0 tokens).map (fun l => ⟨l, l.length⟩)

/-- Bytes of an ASCII string literal (every character below 0x80, so the
char codes are the bytes). -/
def ascii (s : String) : List Nat := s.data.map Char.toNat

/-- Bytes of the `%d` rendering of a natural number. -/
def decB (n : Nat) : List Nat := ascii (Nat.repr n)

/-- The two data-section lines emitted for Print statement `i` with literal
bytes `v`: `msg{i} db "<v>", 0xA` and `len{i} equ $ - msg{i}`. -/
def dataBlock (i : Nat) (v : List Nat) : List Nat :=
  ascii "msg" ++ decB i ++ ascii " db \x22" ++ v ++ ascii "\x22, 0xA\n" ++
  ascii "len" ++ decB i ++ ascii " equ $ - msg" ++ decB i ++ ascii "\n"

/-- The five-line syscall block emitted for Print statement `i`. -/
def textBlock (i : Nat) : List Nat :=
  ascii "    mov rax, 1\n" ++ ascii "    mov rdi, 1\n" ++
  ascii "    mov rsi, msg" ++ decB i ++ ascii "\n" ++
  ascii "    mov rdx, len" ++ decB i ++ ascii "\n" ++
  ascii "    syscall\n\n"

/-- The final exit-syscall block. -/
def exitBlock : List Nat :=
  ascii "    mov rax, 60\n" ++ ascii "    xor rdi, rdi\n" ++ ascii "    syscall\n"

/-- Fallback for out-of-bounds statement indexing (never reached when
`count` matches the statement list). -/
def dfltStmt : Statement := ⟨STMT_PRINT, []⟩

/-- `generate_code` from codegen.c, with the output file modelled as the byte
list accumulated by the `fprintf` calls: the data-section header, a loop over
statement indices `0 ≤ i < count` appending the data block of statement `i`
when its tag is `STMT_PRINT`, the text-section header, the same loop appending
syscall blocks, and the exit block. -/
def generate_code (program : Program) : List Nat :=
  let d := (List.range program.count).foldl
    (fun acc i =>
      let s := program.statements.getD i dfltStmt
      if s.type = STMT_PRINT then acc ++ dataBlock i s.value else acc)
    (ascii "section .data\n")
  let t := (List.range program.count).foldl
    (fun acc i =>
      let s := program.statements.getD i dfltStmt
      if s.type = STMT_PRINT then acc ++ textBlock i else acc)
    (d ++ ascii "\nsection .text\n" ++ ascii "global _start\n" ++ ascii "_start:\n")
  t ++ exitBlock

/-- The layout the specification describes for the emitted assembly: data
section with one `msg{i}`/`len{i}` pair per statement in order, then the text
section with one syscall block per statement in the same order, then the exit
block.  Stated over the statement list with explicit index pairing. -/
def emittedSpec (stmts : List Statement) : List Nat :=
  ascii "section .data\n" ++
  (stmts.enum.map (fun p => dataBlock p.1 p.2.value)).flatten ++
  ascii "\nsection .text\n" ++ ascii "global _start\n" ++ ascii "_start:\n" ++
  (stmts.enum.map (fun p => textBlock p.1)).flatten ++
  exitBlock

/-- The three-token grammar test of the parser loop, as a predicate on the
tokens remaining at the current scan position. -/
def tripleOk : List Token → Bool
  | a :: b :: c :: _ =>
    a.type == TOKEN_PRINT && b.type == TOKEN_SEPARATOR && c.type == TOKEN_STRING
  | _ => false

/-- A token triple matching the production `Keyword-Print Separator StringLiteral`. -/
def goodTriple (tr : Token × Token × Token) : Prop :=
  tr.1.type = TOKEN_PRINT ∧ tr.2.1.type = TOKEN_SEPARATOR ∧ tr.2.2.type = TOKEN_STRING

/-- Flatten a list of token triples into a token sequence. -/
def flatTriples : List (Token × Token × Token) → List Token
  | [] => []
  | tr :: rest => tr.1 :: tr.2.1 :: tr.2.2 :: flatTriples rest

/-- The line used to witness claim C9: keyword, separator, then 600 bytes. -/
def w9line : List Nat := kwB ++ (sepB ++ List.replicate 600 97)

/-- A two-statement program used to witness claim C2. -/
def w2prog : Program := ⟨[⟨STMT_PRINT, ascii "Hello, World!"⟩, ⟨STMT_PRINT, [72]⟩], 2⟩

/-- The input line refuting claim C1 as stated: keyword, space, separator,
then 512 bytes of text. -/
def cexLine : List Nat := kwB ++ [32] ++ sepB ++ List.replicate 512 97

/-! ### Helper lemmas -/

theorem stmtType_eq (t : StatementType) : t = STMT_PRINT := by cases t; rfl

theorem if_stmt (s : Statement) (x y : List Nat) :
    (if s.type = STMT_PRINT then x else y) = x := if_pos (stmtType_eq s.type)

theorem takeWhile_append_all {p : Nat → Bool} :
    ∀ (l r : List Nat), (∀ x ∈ l, p x = true) → (l ++ r).takeWhile p = l ++ r.takeWhile p := by
  intro l r h
  induction l with
  | nil => simp
  | cons a t ih =>
    have ha : p a = true := h a (List.mem_cons_self a t)
    simp only [List.cons_append, List.takeWhile_cons, ha, if_true]
    rw [ih (fun x hx => h x (List.mem_cons_of_mem a hx))]

theorem takeWhile_all {p : Nat → Bool} (l : List Nat) (h : ∀ x ∈ l, p x = true) :
    l.takeWhile p = l := by
  have := takeWhile_append_all l [] h
  simpa using this

theorem dropWhile_all {p : Nat → Bool} :
    ∀ (l r : List Nat), (∀ x ∈ l, p x = true) → (l ++ r).dropWhile p = r.dropWhile p := by
  intro l r h
  induction l with
  | nil => simp
  | cons a t ih =>
    have ha : p a = true := h a (List.mem_cons_self a t)
    simp only [List.cons_append, List.dropWhile_cons, ha, if_true]
    exact ih (fun x hx => h x (List.mem_cons_of_mem a hx))

theorem dropWhile_append_stop {p : Nat → Bool} {y : Nat} (hy : p y = false) :
    ∀ (l r : List Nat), (l ++ y :: r).dropWhile p = l.dropWhile p ++ y :: r := by
  intro l r
  induction l with
  | nil => simp [List.dropWhile_cons, hy]
  | cons a t ih =>
    simp only [List.cons_append, List.dropWhile_cons]
    by_cases ha : p a = true
    · simp only [ha, if_true]; exact ih
    · simp only [Bool.not_eq_true] at ha
      simp [ha]

theorem takeWhile_len_le {p : Nat → Bool} : ∀ (l : List Nat), (l.takeWhile p).length ≤ l.length := by
  intro l
  induction l with
  | nil => simp
  | cons a t ih =>
    rw [List.takeWhile_cons]
    by_cases ha : p a = true
    · simp only [ha, if_true, List.length_cons]
      exact Nat.succ_le_succ ih
    · simp only [Bool.not_eq_true] at ha
      simp [ha]

theorem take_len_append {α : Type} : ∀ (l r : List α), (l ++ r).take l.length = l := by
  intro l r
  induction l with
  | nil => simp
  | cons a t ih => simp [ih]

theorem drop_len_append {α : Type} : ∀ (l r : List α), (l ++ r).drop l.length = r := by
  intro l r
  induction l with
  | nil => simp
  | cons a t ih => simp [ih]

theorem findSub_sep (rest : List Nat) :
    ∀ (pre : List Nat), (0xE2 : Nat) ∉ pre →
      findSub sepB (pre ++ (sepB ++ rest)) = some pre.length := by
  intro pre
  induction pre with
  | nil =>
    intro _
    show findSub sepB (sepB ++ rest) = some 0
    simp [findSub, sepB]
  | cons a t ih =>
    intro h
    have ha : a ≠ 0xE2 := fun hc => h (by simp [hc])
    have ht : (0xE2 : Nat) ∉ t := fun hc => h (List.mem_cons_of_mem a hc)
    show findSub sepB (a :: (t ++ (sepB ++ rest))) = some (a :: t).length
    rw [findSub]
    have hcond : (sepB == (a :: (t ++ (sepB ++ rest))).take sepB.length) = false := by
      simp only [sepB, List.length_cons, List.take, beq_eq_false_iff_ne, ne_eq]
      intro hc
      have : (0xE2 : Nat) = a := by
        have := List.cons.injEq (0xE2 : Nat) _ a _ ▸ hc
        exact (List.cons.injEq _ _ _ _ ▸ hc :
          (0xE2 : Nat) = a ∧ _).1
      exact ha this.symm
    rw [hcond]
    simp only [Bool.false_eq_true, if_false, ih ht, Option.map_some]
    simp

/-! ### Lexer claims -/

theorem tokenize_unknown (line : List Nat) (h : line.take kwB.length ≠ kwB) :
    tokenize line = [⟨TOKEN_UNKNOWN, unkB⟩] := by
  unfold tokenize
  rw [if_neg (by simpa using h)]

/-- Claim C6: for every input line that does not start with the print keyword
(the `strncmp` prefix test fails), `tokenize` yields exactly one token, of
kind Unknown, carrying the fixed placeholder value `???`. -/
theorem claim_C6 (line : List Nat) (h : line.take kwB.length ≠ kwB) :
    tokenize line = [⟨TOKEN_UNKNOWN, unkB⟩] :=
  tokenize_unknown line h

theorem claim_C6_witness :
    ([102, 111, 111, 32, 98, 97, 114, 10] : List Nat).take kwB.length ≠ kwB ∧
      tokenize [102, 111, 111, 32, 98, 97, 114, 10] = [⟨TOKEN_UNKNOWN, unkB⟩] :=
  ⟨by decide, claim_C6 [102, 111, 111, 32, 98, 97, 114, 10] (by decide)⟩

/-- Claim C8: for every input line, `tokenize` returns exactly 1 or exactly 3
tokens, never 0 and never 2: whenever the separator is found after the
keyword, the Separator and StringLiteral tokens are emitted together. -/
theorem claim_C8 (line : List Nat) :
    (tokenize line).length = 1 ∨ (tokenize line).length = 3 := by
  unfold tokenize
  by_cases hk : (line.take kwB.length == kwB) = true
  · rw [if_pos hk]
    cases hf : findSub sepB line with
    | none => left; rfl
    | some j => right; rfl
  · rw [if_neg hk]
    left; rfl

/-- Claim C5: for every input line, `tokenize` returns an ordered sequence of
0–3 tokens: the three tokens Keyword-Print, Separator, StringLiteral (in that
order) when the line begins with the keyword and contains the separator; one
Unknown token when the line does not begin with the keyword; and only a
Keyword-Print token when the keyword is present but the separator absent. -/
theorem claim_C5 (line : List Nat) :
    (line.take kwB.length = kwB → (findSub sepB line).isSome = true →
      ∃ v, tokenize line =
        [⟨TOKEN_PRINT, kwB⟩, ⟨TOKEN_SEPARATOR, sepB⟩, ⟨TOKEN_STRING, v⟩]) ∧
    (line.take kwB.length ≠ kwB → tokenize line = [⟨TOKEN_UNKNOWN, unkB⟩]) ∧
    (line.take kwB.length = kwB → findSub sepB line = none →
      tokenize line = [⟨TOKEN_PRINT, kwB⟩]) := by
  refine ⟨?_, ?_, ?_⟩
  · intro h1 h2
    unfold tokenize
    rw [if_pos (by simpa using h1)]
    cases hf : findSub sepB line with
    | none => rw [hf] at h2; simp at h2
    | some j => exact ⟨_, rfl⟩
  · intro h
    exact tokenize_unknown line h
  · intro h1 h2
    unfold tokenize
    rw [if_pos (by simpa using h1), h2]

theorem claim_C5_witness :
    (∃ v, tokenize (kwB ++ sepB ++ [72, 105]) =
      [⟨TOKEN_PRINT, kwB⟩, ⟨TOKEN_SEPARATOR, sepB⟩, ⟨TOKEN_STRING, v⟩]) ∧
    tokenize [102, 111, 111] = [⟨TOKEN_UNKNOWN, unkB⟩] ∧
    tokenize kwB = [⟨TOKEN_PRINT, kwB⟩] :=
  ⟨(claim_C5 (kwB ++ sepB ++ [72, 105])).1 (by decide) (by decide),
   (claim_C5 [102, 111, 111]).2.1 (by decide),
   (claim_C5 kwB).2.2 (by decide) (by decide)⟩

/-- Claim C7: every StringLiteral token produced by `tokenize` contains no
line-terminator byte 0x0A: the `strcspn`-based strip removes it at lex time. -/
theorem claim_C7 (line : List Nat) (t : Token) (ht : t ∈ tokenize line)
    (hs : t.type = TOKEN_STRING) : (10 : Nat) ∉ t.value := by
  unfold tokenize at ht
  by_cases hk : (line.take kwB.length == kwB) = true
  · rw [if_pos hk] at ht
    cases hf : findSub sepB line with
    | none =>
      rw [hf] at ht
      simp only [List.mem_singleton] at ht
      subst ht
      simp at hs
    | some j =>
      rw [hf] at ht
      simp only [List.mem_cons, List.mem_singleton, List.not_mem_nil, or_false] at ht
      rcases ht with h | h | h
      · subst h; simp at hs
      · subst h; simp at hs
      · subst h
        intro hmem
        have := List.mem_takeWhile_imp hmem
        simp at this
  · rw [if_neg hk] at ht
    simp only [List.mem_singleton] at ht
    subst ht
    simp at hs

theorem claim_C7_witness :
    (⟨TOKEN_STRING, [72, 105]⟩ : Token) ∈ tokenize (kwB ++ sepB ++ [72, 105, 10]) ∧
      (10 : Nat) ∉ ([72, 105] : List Nat) :=
  ⟨by decide, claim_C7 (kwB ++ sepB ++ [72, 105, 10]) ⟨TOKEN_STRING, [72, 105]⟩
    (by decide) rfl⟩

/-- Claim C9: every StringLiteral token holds at most 511 bytes (the
`strncpy` bound `sizeof(value) - 1`), and when the remainder of the line after
the separator and the skipped spaces exceeds 511 bytes (with no terminator
byte among its first 511), it is silently truncated to its first 511 bytes. -/
theorem claim_C9 (line : List Nat) (j : Nat) :
    (∀ t ∈ tokenize line, t.type = TOKEN_STRING → t.value.length ≤ 511) ∧
    (line.take kwB.length = kwB → findSub sepB line = some j →
      ∀ rem, rem = (line.drop (j + sepB.length)).dropWhile (fun b => b == 32) →
        511 < rem.length → (10 : Nat) ∉ rem.take 511 →
        tokenize line =
          [⟨TOKEN_PRINT, kwB⟩, ⟨TOKEN_SEPARATOR, sepB⟩, ⟨TOKEN_STRING, rem.take 511⟩]) := by
  constructor
  · intro t ht hs
    unfold tokenize at ht
    by_cases hk : (line.take kwB.length == kwB) = true
    · rw [if_pos hk] at ht
      cases hf : findSub sepB line with
      | none =>
        rw [hf] at ht
        simp only [List.mem_singleton] at ht
        subst ht; simp at hs
      | some i =>
        rw [hf] at ht
        simp only [List.mem_cons, List.mem_singleton, List.not_mem_nil, or_false] at ht
        rcases ht with h | h | h
        · subst h; simp at hs
        · subst h; simp at hs
        · subst h
          refine le_trans (takeWhile_len_le _) ?_
          rw [List.length_take]
          exact Nat.min_le_left _ _
    · rw [if_neg hk] at ht
      simp only [List.mem_singleton] at ht
      subst ht; simp at hs
  · intro hk hf rem hrem hlen hmem
    unfold tokenize
    rw [if_pos (by simpa using hk), hf]
    have hv : List.takeWhile (fun b => b != 10)
        (((line.drop (j + sepB.length)).dropWhile (fun b => b == 32)).take 511) = rem.take 511 := by
      rw [← hrem]
      exact takeWhile_all _ (fun x hx => by
        have : x ≠ 10 := fun hc => hmem (hc ▸ hx)
        simpa using this)
    show ([⟨TOKEN_PRINT, kwB⟩, ⟨TOKEN_SEPARATOR, sepB⟩,
      ⟨TOKEN_STRING, List.takeWhile (fun b => b != 10)
        (((line.drop (j + sepB.length)).dropWhile (fun b => b == 32)).take 511)⟩] : List Token) =
      [⟨TOKEN_PRINT, kwB⟩, ⟨TOKEN_SEPARATOR, sepB⟩, ⟨TOKEN_STRING, rem.take 511⟩]
    rw [hv]

theorem claim_C9_witness :
    tokenize w9line =
      [⟨TOKEN_PRINT, kwB⟩, ⟨TOKEN_SEPARATOR, sepB⟩,
        ⟨TOKEN_STRING, (List.replicate 600 97).take 511⟩] :=
  (claim_C9 w9line 12).2 (by decide) (by decide) (List.replicate 600 97)
    (by decide) (by decide) (by decide)

/-! ### Parser claims -/

theorem tripleOk_cons (a b c : Token) (t : List Token) :
    tripleOk (a :: b :: c :: t) = true ↔
      (a.type = TOKEN_PRINT ∧ b.type = TOKEN_SEPARATOR ∧ c.type = TOKEN_STRING) := by
  simp [tripleOk, and_assoc]

theorem parseAux_error :
    ∀ (pre : List (Token × Token × Token)) (i : Nat) (a : Token) (tl : List Token),
      (∀ tr ∈ pre, goodTriple tr) → tripleOk (a :: tl) = false →
      parseAux i (flatTriples pre ++ (a :: tl)) = .error ⟨i + 3 * pre.length, a.value⟩ := by
  intro pre
  induction pre with
  | nil =>
    intro i a tl _ hfail
    show parseAux i (a :: tl) = .error ⟨i + 3 * 0, a.value⟩
    rcases tl with _ | ⟨b, (_ | ⟨c, t⟩)⟩
    · simp [parseAux]
    · simp [parseAux]
    · have hc : ¬ (a.type = TOKEN_PRINT ∧ b.type = TOKEN_SEPARATOR ∧ c.type = TOKEN_STRING) := by
        intro hcon
        rw [(tripleOk_cons a b c t).mpr hcon] at hfail
        exact Bool.true_eq_false.mp hfail
      simp only [parseAux, if_neg hc]
      simp
  | cons tr pre ih =>
    intro i a tl hpre hfail
    have htr : goodTriple tr := hpre tr (List.mem_cons_self tr pre)
    have hpre' : ∀ x ∈ pre, goodTriple x := fun x hx => hpre x (List.mem_cons_of_mem tr hx)
    show parseAux i (tr.1 :: tr.2.1 :: tr.2.2 :: (flatTriples pre ++ (a :: tl))) =
      .error ⟨i + 3 * (tr :: pre).length, a.value⟩
    simp only [parseAux]
    rw [if_pos (show tr.1.type = TOKEN_PRINT ∧ tr.2.1.type = TOKEN_SEPARATOR ∧
      tr.2.2.type = TOKEN_STRING from htr)]
    rw [ih (i + 3) a tl hpre' hfail]
    simp only [Except.map]
    have harith : i + 3 + 3 * pre.length = i + 3 * (tr :: pre).length := by
      simp [List.length_cons]; ring
    rw [harith]

/-- Claim C3: whenever the three-token match fails at the current scan
position (including when fewer than three tokens remain there), the parse
fails immediately with a SyntaxError carrying the offending token position
and that token's literal text, and produces no partial Program; with no
matched triples before it, the error references position 0. -/
theorem claim_C3 (pre : List (Token × Token × Token)) (a : Token) (tl : List Token)
    (hpre : ∀ tr ∈ pre, goodTriple tr) (hfail : tripleOk (a :: tl) = false) :
    parse_tokens (flatTriples pre ++ (a :: tl)) = .error ⟨3 * pre.length, a.value⟩ := by
  unfold parse_tokens
  rw [parseAux_error pre 0 a tl hpre hfail]
  rw [Nat.zero_add]
  rfl

theorem claim_C3_witness :
    parse_tokens [⟨TOKEN_UNKNOWN, unkB⟩] = .error ⟨0, unkB⟩ :=
  claim_C3 [] ⟨TOKEN_UNKNOWN, unkB⟩ [] (by simp) (by decide)

theorem parseAux_ok :
    ∀ (n : Nat) (ts : List Token), ts.length ≤ n → ∀ (i : Nat) (l : List Statement),
      parseAux i ts = .ok l → 3 * l.length = ts.length ∧ ∀ s ∈ l, s.type = STMT_PRINT := by
  intro n
  induction n with
  | zero =>
    intro ts hlen i l h
    have hts : ts = [] := List.length_eq_zero.mp (Nat.le_zero.mp hlen)
    subst hts
    simp [parseAux] at h
    subst h
    simp
  | succ n ih =>
    intro ts hlen i l h
    rcases ts with _ | ⟨a, (_ | ⟨b, (_ | ⟨c, t⟩)⟩)⟩
    · simp [parseAux] at h
      subst h
      simp
    · simp [parseAux] at h
    · simp [parseAux] at h
    · by_cases hc : a.type = TOKEN_PRINT ∧ b.type = TOKEN_SEPARATOR ∧ c.type = TOKEN_STRING
      · simp only [parseAux, if_pos hc] at h
        cases hr : parseAux (i + 3) t with
        | error e => rw [hr] at h; simp [Except.map] at h
        | ok l' =>
          rw [hr] at h
          simp only [Except.map] at h
          have hl : (⟨STMT_PRINT, c.value⟩ : Statement) :: l' = l := by
            exact Except.ok.inj h
          have hlen' : t.length ≤ n := by
            simp only [List.length_cons] at hlen
            omega
          obtain ⟨h1, h2⟩ := ih t hlen' (i + 3) l' hr
          subst hl
          constructor
          · simp only [List.length_cons]
            omega
          · intro s hs
            rcases List.mem_cons.mp hs with rfl | hs'
            · rfl
            · exact h2 s hs'
      · simp only [parseAux, if_neg hc] at h
        exact absurd h (by simp)

/-- Claim C4: whenever `parse_tokens` succeeds, `Program.count` times 3
equals the number of tokens consumed (all of them), and every Statement in
the resulting Program is a Print statement, well-formed per the grammar. -/
theorem claim_C4 (ts : List Token) (prog : Program) (h : parse_tokens ts = .ok prog) :
    prog.count * 3 = ts.length ∧ ∀ s ∈ prog.statements, s.type = STMT_PRINT := by
  unfold parse_tokens at h
  cases hr : parseAux 0 ts with
  | error e => rw [hr] at h; simp [Except.map] at h
  | ok l =>
    rw [hr] at h
    simp only [Except.map] at h
    have hp : (⟨l, l.length⟩ : Program) = prog := Except.ok.inj h
    obtain ⟨h1, h2⟩ := parseAux_ok ts.length ts le_rfl 0 l hr
    subst hp
    exact ⟨by simpa [Nat.mul_comm] using h1, h2⟩

theorem claim_C4_witness :
    (Program.mk [⟨STMT_PRINT, []⟩] 1).count * 3 =
      ([⟨TOKEN_PRINT, kwB⟩, ⟨TOKEN_SEPARATOR, sepB⟩, ⟨TOKEN_STRING, []⟩] : List Token).length ∧
    ∀ s ∈ (Program.mk [⟨STMT_PRINT, []⟩] 1).statements, s.type = STMT_PRINT :=
  claim_C4 [⟨TOKEN_PRINT, kwB⟩, ⟨TOKEN_SEPARATOR, sepB⟩, ⟨TOKEN_STRING, []⟩]
    ⟨[⟨STMT_PRINT, []⟩], 1⟩ rfl

/-! ### Codegen claims -/

theorem foldl_blocks (g : Nat → Statement → List Nat) :
    ∀ (l : List Statement) (k : Nat) (acc : List Nat),
      (List.range l.length).foldl (fun a i => a ++ g (k + i) (l.getD i dfltStmt)) acc
        = acc ++ ((List.enumFrom k l).map (fun p => g p.1 p.2)).flatten := by
  intro l
  induction l with
  | nil => intro k acc; simp
  | cons x t ih =>
    intro k acc
    have h0 : (List.range (x :: t).length).foldl
        (fun a i => a ++ g (k + i) ((x :: t).getD i dfltStmt)) acc
      = (List.range t.length).foldl
        (fun a i => a ++ g ((k + 1) + i) (t.getD i dfltStmt)) (acc ++ g k x) := by
      rw [List.length_cons, List.range_succ_eq_map, List.foldl_cons, List.foldl_map]
      congr 1
      funext a i
      simp only [List.getD_cons_succ]
      congr 2
      omega
    rw [h0, ih (k + 1) (acc ++ g k x)]
    have he : List.enumFrom k (x :: t) = (k, x) :: List.enumFrom (k + 1) t := rfl
    rw [he]
    simp [List.append_assoc]

theorem fold_data (l : List Statement) (acc : List Nat) :
    (List.range l.length).foldl
      (fun acc i =>
        let s := l.getD i dfltStmt
        if s.type = STMT_PRINT then acc ++ dataBlock i s.value else acc) acc
    = acc ++ (l.enum.map (fun p => dataBlock p.1 p.2.value)).flatten := by
  have hb : (fun (a : List Nat) (i : Nat) =>
      let s := l.getD i dfltStmt
      if s.type = STMT_PRINT then a ++ dataBlock i s.value else a)
    = (fun (a : List Nat) (i : Nat) =>
        a ++ (fun (j : Nat) (s : Statement) => dataBlock j s.value) (0 + i) (l.getD i dfltStmt)) := by
    funext a i
    show (if (l.getD i dfltStmt).type = STMT_PRINT
        then a ++ dataBlock i (l.getD i dfltStmt).value else a)
      = a ++ dataBlock (0 + i) (l.getD i dfltStmt).value
    rw [if_stmt, Nat.zero_add]
  rw [hb, foldl_blocks (fun j s => dataBlock j s.value) l 0 acc]
  rfl

theorem fold_text (l : List Statement) (acc : List Nat) :
    (List.range l.length).foldl
      (fun acc i =>
        let s := l.getD i dfltStmt
        if s.type = STMT_PRINT then acc ++ textBlock i else acc) acc
    = acc ++ (l.enum.map (fun p => textBlock p.1)).flatten := by
  have hb : (fun (a : List Nat) (i : Nat) =>
      let s := l.getD i dfltStmt
      if s.type = STMT_PRINT then a ++ textBlock i else a)
    = (fun (a : List Nat) (i : Nat) =>
        a ++ (fun (j : Nat) (_s : Statement) => textBlock j) (0 + i) (l.getD i dfltStmt)) := by
    funext a i
    show (if (l.getD i dfltStmt).type = STMT_PRINT then a ++ textBlock i else a)
      = a ++ textBlock (0 + i)
    rw [if_stmt, Nat.zero_add]
  rw [hb, foldl_blocks (fun j _s => textBlock j) l 0 acc]
  rfl

/-- Claim C2: for every Program whose count matches its statement list,
`generate_code` emits first the data section with, per Print statement `i`
in statement order, the `msg{i} db "<bytes>", 0xA` and `len{i} equ $ - msg{i}`
lines, then the text section with `global _start`, the `_start:` label, one
five-line syscall block per Print statement in the same order referencing
`msg{i}`/`len{i}` of its own index, and the final exit block — with no
interleaving or reordering across statements. -/
theorem claim_C2 (program : Program) (h : program.count = program.statements.length) :
    generate_code program = emittedSpec program.statements := by
  show ((List.range program.count).foldl
      (fun acc i =>
        let s := program.statements.getD i dfltStmt
        if s.type = STMT_PRINT then acc ++ textBlock i else acc)
      (((List.range program.count).foldl
        (fun acc i =>
          let s := program.statements.getD i dfltStmt
          if s.type = STMT_PRINT then acc ++ dataBlock i s.value else acc)
        (ascii "section .data\n")) ++
          ascii "\nsection .text\n" ++ ascii "global _start\n" ++ ascii "_start:\n"))
      ++ exitBlock = emittedSpec program.statements
  rw [h]
  rw [fold_data program.statements (ascii "section .data\n")]
  rw [fold_text program.statements]
  simp only [emittedSpec]

theorem claim_C2_witness :
    w2prog.count = w2prog.statements.length ∧ generate_code w2prog = emittedSpec w2prog.statements :=
  ⟨rfl, claim_C2 w2prog rfl⟩

/-! ### Pipeline claims -/

theorem mem_of_dropWhile {p : Nat → Bool} {x : Nat} :
    ∀ {l : List Nat}, x ∈ l.dropWhile p → x ∈ l := by
  intro l
  induction l with
  | nil => intro h; simp at h
  | cons a t ih =>
    intro h
    rw [List.dropWhile_cons] at h
    by_cases ha : p a = true
    · simp only [ha, if_true] at h
      exact List.mem_cons_of_mem a (ih h)
    · simp only [Bool.not_eq_true] at ha
      simp only [ha, Bool.false_eq_true, if_false] at h
      exact h

theorem take_ge {α : Type} : ∀ (l : List α) (n : Nat), l.length ≤ n → l.take n = l := by
  intro l
  induction l with
  | nil => intro n _; simp
  | cons a t ih =>
    intro n hn
    cases n with
    | zero => simp at hn
    | succ m =>
      rw [List.take_succ_cons]
      rw [ih m (by simpa [Nat.succ_le_succ_iff] using hn)]

theorem take_append_ge {α : Type} :
    ∀ (l r : List α) (n : Nat), l.length ≤ n → (l ++ r).take n = l ++ r.take (n - l.length) := by
  intro l
  induction l with
  | nil => intro r n _; simp
  | cons a t ih =>
    intro r n hn
    cases n with
    | zero => simp at hn
    | succ m =>
      have hm : t.length ≤ m := by simpa [Nat.succ_le_succ_iff] using hn
      simp only [List.cons_append, List.take_succ_cons, ih r m hm, List.length_cons,
        Nat.succ_sub_succ]

/-- The token sequence that `tokenize` produces on a well-formed line: the
keyword, a separator-free gap, the separator glyph, then the literal text
(with no interior terminator, a trailing one allowed, at most 511 bytes after
space-stripping). -/
theorem tokenize_wf (gap body nl : List Nat) (hgap : (0xE2 : Nat) ∉ gap)
    (hnl : nl = [] ∨ nl = [10]) (hbody : (10 : Nat) ∉ body)
    (hlen : (body.dropWhile (fun b => b == 32)).length ≤ 511) :
    tokenize (kwB ++ (gap ++ (sepB ++ (body ++ nl)))) =
      [⟨TOKEN_PRINT, kwB⟩, ⟨TOKEN_SEPARATOR, sepB⟩,
        ⟨TOKEN_STRING, body.dropWhile (fun b => b == 32)⟩] := by
  have hk : (kwB ++ (gap ++ (sepB ++ (body ++ nl)))).take kwB.length = kwB :=
    take_len_append kwB _
  have hpre : (0xE2 : Nat) ∉ kwB ++ gap := by
    intro hm
    rcases List.mem_append.mp hm with h | h
    · revert h; decide
    · exact hgap h
  have hfind : findSub sepB (kwB ++ (gap ++ (sepB ++ (body ++ nl)))) =
      some (kwB ++ gap).length := by
    have hassoc : kwB ++ (gap ++ (sepB ++ (body ++ nl)))
        = (kwB ++ gap) ++ (sepB ++ (body ++ nl)) := by
      simp [List.append_assoc]
    rw [hassoc]
    exact findSub_sep (body ++ nl) (kwB ++ gap) hpre
  have hdrop : (kwB ++ (gap ++ (sepB ++ (body ++ nl)))).drop
      ((kwB ++ gap).length + sepB.length) = body ++ nl := by
    have h2 : kwB ++ (gap ++ (sepB ++ (body ++ nl)))
        = ((kwB ++ gap) ++ sepB) ++ (body ++ nl) := by
      simp [List.append_assoc]
    rw [h2, ← List.length_append (kwB ++ gap) sepB]
    exact drop_len_append _ _
  unfold tokenize
  rw [if_pos (by simp [hk]), hfind]
  show ([⟨TOKEN_PRINT, kwB⟩, ⟨TOKEN_SEPARATOR, sepB⟩,
    ⟨TOKEN_STRING, List.takeWhile (fun b => b != 10)
      ((((kwB ++ (gap ++ (sepB ++ (body ++ nl)))).drop
        ((kwB ++ gap).length + sepB.length)).dropWhile (fun b => b == 32)).take 511)⟩] :
      List Token) =
    [⟨TOKEN_PRINT, kwB⟩, ⟨TOKEN_SEPARATOR, sepB⟩,
      ⟨TOKEN_STRING, body.dropWhile (fun b => b == 32)⟩]
  rw [hdrop]
  have hdw : (body ++ nl).dropWhile (fun b => b == 32)
      = body.dropWhile (fun b => b == 32) ++ nl := by
    rcases hnl with rfl | rfl
    · simp
    · exact dropWhile_append_stop (by decide) body []
  rw [hdw]
  have h10d : (10 : Nat) ∉ body.dropWhile (fun b => b == 32) :=
    fun hm => hbody (mem_of_dropWhile hm)
  have hall : ∀ x ∈ body.dropWhile (fun b => b == 32), (x != 10) = true := by
    intro x hx
    have hne : x ≠ 10 := fun hc => h10d (hc ▸ hx)
    simp [hne]
  have hval : List.takeWhile (fun b => b != 10)
      (((body.dropWhile (fun b => b == 32)) ++ nl).take 511)
      = body.dropWhile (fun b => b == 32) := by
    rcases hnl with rfl | rfl
    · rw [List.append_nil, take_ge _ 511 hlen]
      exact takeWhile_all _ hall
    · rw [take_append_ge _ [10] 511 hlen, takeWhile_append_all _ _ hall]
      have hz : (([10] : List Nat).take
          (511 - (body.dropWhile (fun b => b == 32)).length)).takeWhile
            (fun b => b != 10) = [] := by
        cases h : 511 - (body.dropWhile (fun b => b == 32)).length with
        | zero => rfl
        | succ m => simp [List.take, List.takeWhile]
      rw [hz, List.append_nil]
  rw [hval]

/-- Claim C1 counterexample: on the well-formed line `cexLine` whose text is
512 bytes, the pipeline produces a Print statement holding only the first
511 bytes, not the full stripped text the claim requires. -/
theorem claim_C1_cex :
    parse_tokens (tokenize cexLine) = .ok ⟨[⟨STMT_PRINT, List.replicate 511 97⟩], 1⟩ ∧
      (List.replicate 512 97).dropWhile (fun b => b == 32) ≠
        (List.replicate 511 (97 : Nat)) := by
  constructor
  · rfl
  · decide

/-- Claim C1 (amended): for every well-formed input line
`<keyword> <separator> <text>` whose text strips (leading spaces, trailing
terminator) to at most 511 bytes — the lexer's payload capacity — running
`tokenize` then `parse_tokens` yields a Program with exactly one Print
statement whose content is the text with the trailing terminator stripped
and leading spaces removed. -/
theorem claim_C1_amended (body nl : List Nat) (hnl : nl = [] ∨ nl = [10])
    (hbody : (10 : Nat) ∉ body)
    (hlen : (body.dropWhile (fun b => b == 32)).length ≤ 511) :
    parse_tokens (tokenize (kwB ++ ([32] ++ (sepB ++ (body ++ nl))))) =
      .ok ⟨[⟨STMT_PRINT, body.dropWhile (fun b => b == 32)⟩], 1⟩ := by
  rw [tokenize_wf [32] body nl (by decide) hnl hbody hlen]
  rfl

theorem claim_C1_witness :
    parse_tokens (tokenize (kwB ++ ([32] ++ (sepB ++ ([72, 105] ++ [10]))))) =
      .ok ⟨[⟨STMT_PRINT, [72, 105]⟩], 1⟩ := by
  have h := claim_C1_amended [72, 105] [10] (Or.inr rfl) (by decide) (by decide)
  have hd : ([72, 105] : List Nat).dropWhile (fun b => b == 32) = [72, 105] := by decide
  rw [hd] at h
  exact h

/-- Claim C10: for a line of the keyword and the separator followed by
nothing, only spaces, or only a line terminator, `tokenize` yields an empty
StringLiteral, the parse succeeds with one Print statement of empty content,
and `generate_code` emits the data line `msg0 db "", 0xA` for it. -/
theorem claim_C10 (sp sp2 nl : List Nat) (hsp : ∀ x ∈ sp, x = 32)
    (hsp2 : ∀ x ∈ sp2, x = 32) (hnl : nl = [] ∨ nl = [10]) :
    parse_tokens (tokenize (kwB ++ (sp ++ (sepB ++ (sp2 ++ nl))))) =
      .ok ⟨[⟨STMT_PRINT, []⟩], 1⟩ ∧
    (findSub (ascii "msg0 db \x22\x22, 0xA\n")
      (generate_code ⟨[⟨STMT_PRINT, []⟩], 1⟩)).isSome = true := by
  constructor
  · have hval : sp2.dropWhile (fun b => b == 32) = [] := by
      have h := dropWhile_all (p := fun b => b == 32) sp2 []
        (fun x hx => by simp [hsp2 x hx])
      simpa using h
    rw [tokenize_wf sp sp2 nl (fun hm => by have := hsp _ hm; omega) hnl
      (fun hm => by have := hsp2 _ hm; omega) (by rw [hval]; decide)]
    rw [hval]
    rfl
  · decide

theorem claim_C10_witness :
    parse_tokens (tokenize (kwB ++ ([32] ++ (sepB ++ ([] ++ [10]))))) =
      .ok ⟨[⟨STMT_PRINT, []⟩], 1⟩ ∧
    (findSub (ascii "msg0 db \x22\x22, 0xA\n")
      (generate_code ⟨[⟨STMT_PRINT, []⟩], 1⟩)).isSome = true :=
  claim_C10 [32] [] [10] (by decide) (by decide) (Or.inr rfl)

end Veerji
